import Mathlib

/-!
Verification of the panic-recovery middleware in `src/web/middleware/recovery.go`
(package `middleware` of the 3x-ui repository).

The Go file defines three functions:
* `RecoveryJSON` — a gin middleware that recovers panics, logs one diagnostic
  record, and either aborts silently (dead client connection) or answers with a
  fixed JSON 500 body;
* `dumpRequestSafe` — builds a header-redacted textual dump of the request
  (never touching the body);
* `isBrokenPipe` — classifies an error as a broken/reset connection by
  substring matching.

The development below is a shallow embedding: each Go function becomes a Lean
function over explicit data.  Go standard-library operations the file calls
(`strings.Contains`, `strings.ToLower`, `strings.TrimSpace`,
`textproto.CanonicalMIMEHeaderKey`, `http.Header.Get/Set/Clone`, `errors.As`,
`net.OpError.Error`, `httputil.DumpRequest` with `body=false`) are modelled
from their documented semantics, restricted to the shapes this middleware can
produce (ASCII case folding; requests without chunked transfer encoding are
the interesting case but the fields are carried anyway).
-/

namespace Recovery

/-! ## Modelled Go string primitives -/

/-- Model of Go `strings.HasPrefix` on character lists. -/
def startsWithList : List Char → List Char → Bool
  | _, [] => true
  | [], _ :: _ => false
  | c :: s, p :: ps => c = p && startsWithList s ps

/-- Model of Go `strings.Contains` on character lists: does `pat` occur as a
contiguous substring of `s`?  (`pat = []` yields `true`, as in Go.) -/
def containsList : List Char → List Char → Bool
  | s, pat =>
    if startsWithList s pat then true
    else match s with
      | [] => false
      | _ :: s1 => containsList s1 pat

/-- Model of Go `strings.Contains` on strings. -/
def strContains (s pat : String) : Bool := containsList s.data pat.data

/-- Model of Go `strings.HasPrefix` on strings. -/
def strStartsWith (s pat : String) : Bool := startsWithList s.data pat.data

/-- Model of Go `strings.ToLower`, restricted to ASCII case folding (the
substrings the middleware searches for are ASCII). -/
def lowerStr (s : String) : String := ⟨s.data.map Char.toLower⟩

/-- The characters Go `unicode.IsSpace` accepts in the Latin-1 range: the
set `strings.TrimSpace` trims. -/
def isGoSpace (c : Char) : Bool :=
  c = ' ' || c = '\t' || c = '\n' || c = '\r' ||
    c.toNat = 11 || c.toNat = 12 || c.toNat = 133 || c.toNat = 160

/-- Trim `isGoSpace` characters from both ends of a character list. -/
def trimList (l : List Char) : List Char :=
  ((l.dropWhile isGoSpace).reverse.dropWhile isGoSpace).reverse

/-- Model of Go `strings.TrimSpace`. -/
def trimSpace (s : String) : String := ⟨trimList s.data⟩

/-- Model of Go `strings.Join` with separator `","`
(used by `DumpRequest` for the Transfer-Encoding line). -/
def joinComma : List String → String
  | [] => ""
  | [s] => s
  | s :: rest => s ++ "," ++ joinComma rest

/-- Concatenation of a list of strings (`io.WriteString` accumulation into the
dump buffer). -/
def concatStrs : List String → String
  | [] => ""
  | s :: rest => s ++ concatStrs rest

/-! ## Model of Go error values

`error` values reaching `isBrokenPipe` are modelled by the wrapping shapes the
Go ecosystem produces: a leaf error carrying a message (`errors.New`,
`fmt.Errorf` without `%w`), a wrapping error whose message is a prefix
followed by the wrapped error's message (`fmt.Errorf("...: %w", err)`), and a
`*net.OpError`, whose `Err` field is its (possibly absent) inner error and
whose own message is its op/net/address prefix followed by `": "` and the
inner message.  (`net.OpError.Error` panics on a nil `Err`; that unreachable
corner is rendered as the placeholder `"<nil>"`.) -/

inductive GoErr where
  | basic (msg : String)
  | wrapf (pre : String) (inner : GoErr)
  | opError (pre : String) (inner : Option GoErr)

/-- Model of `Error()`: the message of an error value. -/
def GoErr.error : GoErr → String
  | .basic m => m
  | .wrapf pre inner => pre ++ inner.error
  | .opError pre inner =>
      pre ++ ": " ++ (match inner with | some e => e.error | none => "<nil>")

/-- Model of `errors.As(err, &ne)` for target type `*net.OpError`: walk the
`Unwrap` chain and return the fields (`pre`, `Err`) of the first
`*net.OpError` found, if any. -/
def findOpError : GoErr → Option (String × Option GoErr)
  | .basic _ => none
  | .wrapf _ inner => findOpError inner
  | .opError pre inner => some (pre, inner)

/-- The `Unwrap` chain of an error: the error itself followed by the chain of
its wrapped causes (`fmt` wrap errors unwrap to the wrapped error,
`*net.OpError` unwraps to its `Err` field, leaf errors end the chain). -/
def chain : GoErr → List GoErr
  | .basic m => [.basic m]
  | .wrapf pre inner => .wrapf pre inner :: chain inner
  | .opError pre none => [.opError pre none]
  | .opError pre (some inner) => .opError pre (some inner) :: chain inner

/-- The messages of an error at every level of wrapping. -/
def allMsgs (e : GoErr) : List String := (chain e).map GoErr.error

/-- The substring test applied by `isBrokenPipe` to a message:
lower-case it and look for `"broken pipe"` or `"connection reset by peer"`. -/
def matchesBrokenPipeMsg (s : String) : Bool :=
  strContains (lowerStr s) "broken pipe" ||
    strContains (lowerStr s) "connection reset by peer"

/-- Embedding of `isBrokenPipe` (recovery.go:95-111).  `none` is Go's nil
error. -/
def isBrokenPipe : Option GoErr → Bool
  | none => false
  | some err =>
    match findOpError err with
    | some (_, some inner) => matchesBrokenPipeMsg inner.error
    | _ => matchesBrokenPipeMsg err.error

/-! ## Model of `http.Header` -/

/-- Go `http.Header` is `map[string][]string`; modelled as an association list
whose keys the Go server stores in canonical MIME form. -/
abbrev Header := List (String × List String)

/-- The token characters a valid MIME header field name may contain
(`net/textproto`'s token table): digits, letters and
`! # $ % & ' * + - . ^ _ \x60 | ~` (the last row given by code point). -/
def validHeaderFieldChar (c : Char) : Bool :=
  let n := c.toNat
  (48 ≤ n && n ≤ 57) || (65 ≤ n && n ≤ 90) || (97 ≤ n && n ≤ 122) ||
    n = 33 || n = 35 || n = 36 || n = 37 || n = 38 || n = 39 || n = 42 ||
    n = 43 || n = 45 || n = 46 || n = 94 || n = 95 || n = 96 || n = 124 ||
    n = 126

/-- Case-normalisation pass of `textproto.CanonicalMIMEHeaderKey`:
upper-case the first letter and every letter following a `-`, lower-case the
rest. -/
def canonChars : Bool → List Char → List Char
  | _, [] => []
  | up, c :: cs =>
    let c2 := if up then c.toUpper else c.toLower
    c2 :: canonChars (c2 = '-') cs

/-- Model of `textproto.CanonicalMIMEHeaderKey`: keys containing a non-token
character are returned unchanged. -/
def canonicalKey (s : String) : String :=
  if s.data.all validHeaderFieldChar then ⟨canonChars true s.data⟩ else s

/-- Go map indexing `h[k]` for a `Header`. -/
def hlookup (k : String) : Header → Option (List String)
  | [] => none
  | (k1, vs) :: rest => if k1 = k then some vs else hlookup k rest

/-- Model of `http.Header.Get`: canonicalise the key and return the first
value, or `""` when the key is absent or has no values. -/
def Header.get (h : Header) (key : String) : String :=
  match hlookup (canonicalKey key) h with
  | some (v :: _) => v
  | _ => ""

/-- Replace every binding of key `ck` by the single value `[v]` (a Go map
holds at most one binding per key, so this is the map assignment on the
entries with that key). -/
def replaceAll (ck v : String) : Header → Header
  | [] => []
  | (k1, vs) :: t =>
    if k1 = ck then (ck, [v]) :: replaceAll ck v t
    else (k1, vs) :: replaceAll ck v t

/-- Model of `http.Header.Set`: canonicalise the key and replace its binding
by the single value `[val]` (map assignment; a fresh binding is appended when
the key is absent). -/
def Header.set (h : Header) (key val : String) : Header :=
  if (hlookup (canonicalKey key) h).isSome then
    replaceAll (canonicalKey key) val h
  else
    h ++ [(canonicalKey key, [val])]

/-! ## Model of `http.Request` and `httputil.DumpRequest` -/

/-- The fields of `http.Request` read by the middleware and by
`DumpRequest(·, false)`.  `url` is `URL.String()`, `urlRequestURI` is
`URL.RequestURI()`, `urlHost` is `URL.Host`.  `body` is an opaque token for
the body stream's read state; no function below inspects it. -/
structure Request where
  method : String
  url : String
  requestURI : String
  urlRequestURI : String
  urlHost : String
  host : String
  protoMajor : Nat
  protoMinor : Nat
  transferEncoding : List String
  close : Bool
  header : Header
  body : Nat

/-- The header keys `DumpRequest` writes outside the sorted header block and
therefore excludes from it (`reqWriteExcludeHeaderDump`). -/
def dumpExcluded (k : String) : Bool :=
  k = "Host" || k = "Transfer-Encoding" || k = "Trailer"

/-- Per-value sanitisation of `http.Header.WriteSubset`: CR and LF become
spaces, then spaces and tabs are trimmed from both ends. -/
def sanitizeHeaderValue (v : String) : String :=
  let repl := v.data.map (fun c => if c = '\n' || c = '\r' then ' ' else c)
  ⟨((repl.dropWhile (fun c => c = ' ' || c = '\t')).reverse.dropWhile
      (fun c => c = ' ' || c = '\t')).reverse⟩

/-- One `Key: value` line of the dump's header block. -/
def headerLine (k v : String) : String :=
  k ++ ": " ++ sanitizeHeaderValue v ++ "\r\n"

/-- All lines of one header entry (one line per value). -/
def renderKV (p : String × List String) : String :=
  concatStrs (p.2.map (headerLine p.1))

/-- Byte-wise lexicographic `≤` on character lists (Go's `string` comparison
on the ASCII header keys). -/
def leChars : List Char → List Char → Bool
  | [], _ => true
  | _ :: _, [] => false
  | a :: as, b :: bs =>
    if a.toNat < b.toNat then true
    else if a.toNat = b.toNat then leChars as bs
    else false

/-- Go `string` comparison `a <= b` for header keys. -/
def keyLe (a b : String) : Bool := leChars a.data b.data

/-- Insert an entry into a key-sorted header list. -/
def insertSorted (p : String × List String) : Header → Header
  | [] => [p]
  | q :: rest => if keyLe p.1 q.1 then p :: q :: rest else q :: insertSorted p rest

/-- Sort header entries by key (`Header.sortedKeyValues`; a Go map's keys are
unique, so any comparison sort gives the same sequence). -/
def sortByKey : Header → Header
  | [] => []
  | p :: rest => insertSorted p (sortByKey rest)

/-- The header block of `DumpRequest`: non-excluded entries, sorted by key,
one line per value. -/
def headerBlock (h : Header) : String :=
  concatStrs ((sortByKey (h.filter (fun p => !(dumpExcluded p.1)))).map renderKV)

/-- Everything `DumpRequest(req, false)` writes before the sorted header
block: the request line, the `Host` line (unless the request target is
absolute), and the `Transfer-Encoding` and `Connection: close` lines when
applicable. -/
def dumpPre (r : Request) : String :=
  let method := if r.method = "" then "GET" else r.method
  let reqURI := if r.requestURI = "" then r.urlRequestURI else r.requestURI
  let absURI :=
    strStartsWith r.requestURI "http://" || strStartsWith r.requestURI "https://"
  let hostStr := if r.host = "" then r.urlHost else r.host
  method ++ " " ++ reqURI ++ " HTTP/" ++ toString r.protoMajor ++ "." ++
      toString r.protoMinor ++ "\r\n" ++
    (if absURI then "" else if hostStr = "" then "" else "Host: " ++ hostStr ++ "\r\n") ++
    (if r.transferEncoding.isEmpty then ""
     else "Transfer-Encoding: " ++ joinComma r.transferEncoding ++ "\r\n") ++
    (if r.close then "Connection: close\r\n" else "")

/-- Model of `httputil.DumpRequest(req, false)`: the pre-part, then the
sorted header block and a blank line.  The body is not consulted
(`body=false`). -/
def dumpRequest (r : Request) : String :=
  dumpPre r ++ headerBlock r.header ++ "\r\n"

/-- Model of `DumpRequest` with its Go signature `([]byte, error)`: with `body=false`
the writes go to a `bytes.Buffer`, which cannot fail, so the result is always
`ok`. -/
def dumpRequestExc (r : Request) : Except String String :=
  .ok (dumpRequest r)

/-! ## Embedding of `dumpRequestSafe` (recovery.go:70-93) -/

/-- The fixed sensitive-header list of `dumpRequestSafe`. -/
def sensitiveHeaders : List String :=
  ["Authorization", "Proxy-Authorization", "Cookie", "Set-Cookie",
   "X-Api-Key", "X-Auth-Token"]

/-- One iteration of the redaction loop: replace the header's values by the
marker iff its first value is non-empty. -/
def redactOne (h : Header) (name : String) : Header :=
  if Header.get h name ≠ "" then Header.set h name "***REDACTED***" else h

/-- The whole redaction loop over the cloned header map. -/
def redactHeaders (h : Header) : Header :=
  sensitiveHeaders.foldl redactOne h

/-- The shallow request copy `r2` with the redacted header clone. -/
def redactedCopy (r : Request) : Request :=
  { r with header := redactHeaders r.header }

/-- Function `dumpRequestSafe`, generalised over the dump serialiser so the
error-guard branch can be stated for a failing serialiser. -/
def dumpRequestSafeWith (dumper : Request → Except String String)
    (r : Request) : String :=
  match dumper (redactedCopy r) with
  | .error e => "could not dump request: " ++ e
  | .ok s => trimSpace s

/-- Embedding of `dumpRequestSafe`: clone-and-redact the headers, dump the
shallow copy without the body, trim the result; a serialiser failure is
replaced by the placeholder string. -/
def dumpRequestSafe (r : Request) : String :=
  dumpRequestSafeWith dumpRequestExc r

/-- State-passing rendering of `dumpRequestSafe`: each Go statement in
sequence, returning the produced text together with the request value the
caller retains.  The redaction loop acts on the clone `redacted`, the dump
acts on the fresh shallow copy `r2`, and `r` itself is only read, so the
retained request is `r` unchanged. -/
def dumpRequestSafeSt (r : Request) : String × Request :=
  let redacted := r.header
  let redacted2 := redactHeaders redacted
  let r2 : Request := { r with header := redacted2 }
  let text :=
    match dumpRequestExc r2 with
    | .error e => "could not dump request: " ++ e
    | .ok s => trimSpace s
  (text, r)

/-! ## Embedding of `RecoveryJSON` (recovery.go:20-67) -/

/-- The value recovered from a panic: either it already implements `error`,
or it is another value rendered by `fmt.Errorf("%v", v)` into a message. -/
inductive PanicVal where
  | errVal (e : GoErr)
  | otherVal (msg : String)

/-- Normalisation of the recovered value into an error (the `switch` in the
deferred function). -/
def normalizeRecovered : PanicVal → GoErr
  | .errVal e => e
  | .otherVal msg => .basic msg

/-- Outcome of `c.Next()`: the inner chain either completes or panics. -/
inductive Outcome where
  | completed
  | panicked (v : PanicVal)

/-- A response write: status code and the JSON object's fields (the gin `H`
map serialises with keys in sorted order, which for this literal is the
written order). -/
structure Response where
  status : Nat
  body : List (String × String)

/-- The observable effects of one interceptor invocation: the log record (if
any), the response write (if any), the errors recorded on the context via
`c.Error`, and whether the context was aborted. -/
structure MWResult where
  logLine : Option String
  response : Option Response
  contextErrors : List GoErr
  aborted : Bool

/-- The `log.Printf` record: format string
`"[PANIC] %s | %s %s | brokenPipe=%t | err=%v\nRequest:\n%s\nStack:\n%s"`
applied to elapsed time, method, URL, classification, error message, dump and
stack. -/
def panicLogLine (elapsed method url : String) (bp : Bool)
    (errMsg dump stack : String) : String :=
  "[PANIC] " ++ elapsed ++ " | " ++ method ++ " " ++ url ++ " | brokenPipe=" ++
    (if bp then "true" else "false") ++ " | err=" ++ errMsg ++
    "\nRequest:\n" ++ dump ++ "\nStack:\n" ++ stack

/-- Embedding of `RecoveryJSON`'s handler for one request.  `elapsed` is the
rendered `time.Since(start)` and `stack` the rendered `debug.Stack()`, both
opaque runtime strings. -/
def RecoveryJSON (r : Request) (outcome : Outcome)
    (elapsed stack : String) : MWResult :=
  match outcome with
  | .completed =>
    { logLine := none, response := none, contextErrors := [], aborted := false }
  | .panicked v =>
    let err := normalizeRecovered v
    let brokenPipe := isBrokenPipe (some err)
    let reqDump := dumpRequestSafe r
    let line :=
      panicLogLine elapsed r.method r.url brokenPipe err.error reqDump stack
    if brokenPipe then
      { logLine := some line, response := none, contextErrors := [err],
        aborted := true }
    else
      let reqID := Header.get r.header "X-Request-ID"
      { logLine := some line,
        response := some
          { status := 500,
            body := [("error", "internal_error"),
                     ("message", "Something went wrong"),
                     ("requestId", reqID)] },
        contextErrors := [], aborted := true }

/-! ## String and list lemmas -/

theorem strData_append (s t : String) : (s ++ t).data = s.data ++ t.data := rfl

theorem trimSpace_data (s : String) : (trimSpace s).data = trimList s.data :=
  rfl

theorem startsWithList_iff (s pat : List Char) :
    startsWithList s pat = true ↔ pat <+: s := by
  induction s generalizing pat with
  | nil =>
    cases pat with
    | nil => simp [startsWithList]
    | cons p ps => simp [startsWithList]
  | cons c s1 ih =>
    cases pat with
    | nil => simp [startsWithList]
    | cons p ps =>
      simp only [startsWithList, Bool.and_eq_true, decide_eq_true_eq,
        List.cons_prefix_cons, ih]
      constructor
      · rintro ⟨h1, h2⟩; exact ⟨h1.symm, h2⟩
      · rintro ⟨h1, h2⟩; exact ⟨h1.symm, h2⟩

theorem containsList_iff (s pat : List Char) :
    containsList s pat = true ↔ pat <:+: s := by
  induction s with
  | nil =>
    simp only [containsList]
    cases pat with
    | nil => simp [startsWithList]
    | cons p ps => simp [startsWithList, List.infix_nil]
  | cons c s1 ih =>
    rw [containsList]
    by_cases hs : startsWithList (c :: s1) pat = true
    · simp [hs, List.infix_cons_iff]
      exact Or.inl ((startsWithList_iff _ _).mp hs)
    · simp only [Bool.not_eq_true] at hs
      simp [hs, ih, List.infix_cons_iff]
      intro hpre
      exact absurd ((startsWithList_iff _ _).mpr hpre) (by simp [hs])

theorem strContains_iff (s pat : String) :
    strContains s pat = true ↔ pat.data <:+: s.data :=
  containsList_iff s.data pat.data

theorem infix_extend {pat m : List Char} (a b : List Char) (h : pat <:+: m) :
    pat <:+: a ++ m ++ b := by
  obtain ⟨x, y, hxy⟩ := h
  exact ⟨a ++ x, y ++ b, by rw [← hxy]; simp [List.append_assoc]⟩

theorem mem_concatStrs (s : String) (l : List String) (h : s ∈ l) :
    s.data <:+: (concatStrs l).data := by
  induction l with
  | nil => cases h
  | cons a t ih =>
    rcases List.mem_cons.mp h with rfl | h2
    · exact ⟨[], (concatStrs t).data, by simp [concatStrs, strData_append]⟩
    · obtain ⟨x, y, hxy⟩ := ih h2
      exact ⟨a.data ++ x, y,
        by simp [concatStrs, strData_append, ← hxy, List.append_assoc]⟩

theorem infix_dropWhile_of_head (pat l : List Char)
    (hh : pat.head?.all (fun c => !isGoSpace c) = true)
    (h : pat <:+: l) : pat <:+: l.dropWhile isGoSpace := by
  induction l with
  | nil =>
    rw [List.infix_nil] at h
    subst h
    simp
  | cons d t ih =>
    by_cases hd : isGoSpace d = true
    · rw [List.dropWhile_cons_of_pos hd]
      rcases List.infix_cons_iff.mp h with hpre | hinf
      · cases pat with
        | nil => simp
        | cons c ps =>
          obtain ⟨hcd, -⟩ := List.cons_prefix_cons.mp hpre
          simp only [List.head?_cons, Option.all_some] at hh
          rw [hcd] at hh
          simp [hd] at hh
      · exact ih hinf
    · rw [List.dropWhile_cons_of_neg hd]
      exact h

theorem infix_trimList (pat l : List Char)
    (hh : pat.head?.all (fun c => !isGoSpace c) = true)
    (hl : pat.getLast?.all (fun c => !isGoSpace c) = true)
    (h : pat <:+: l) : pat <:+: trimList l := by
  unfold trimList
  have h1 := infix_dropWhile_of_head pat l hh h
  have h2 : pat.reverse <:+: (l.dropWhile isGoSpace).reverse :=
    List.reverse_infix.mpr h1
  have hh2 : pat.reverse.head?.all (fun c => !isGoSpace c) = true := by
    rw [List.head?_reverse]; exact hl
  have h3 := infix_dropWhile_of_head pat.reverse _ hh2 h2
  have h4 := List.reverse_infix.mpr h3
  simpa using h4

theorem mem_insertSorted (p q : String × List String) (l : Header) :
    q ∈ insertSorted p l ↔ q = p ∨ q ∈ l := by
  induction l with
  | nil => simp [insertSorted]
  | cons x t ih =>
    rw [insertSorted]
    split
    · simp [or_comm, or_assoc, or_left_comm]
    · simp [ih]
      tauto

theorem mem_sortByKey (q : String × List String) (l : Header) :
    q ∈ sortByKey l ↔ q ∈ l := by
  induction l with
  | nil => simp [sortByKey]
  | cons p t ih => simp [sortByKey, mem_insertSorted, ih]

/-! ## Error-chain lemmas -/

theorem self_mem_chain (e : GoErr) : e ∈ chain e := by
  cases e with
  | basic m => simp [chain]
  | wrapf pre inner => simp [chain]
  | opError pre inner =>
    cases inner with
    | none => simp [chain]
    | some ie => simp [chain]

theorem error_mem_allMsgs (e : GoErr) : e.error ∈ allMsgs e :=
  List.mem_map_of_mem _ (self_mem_chain e)

theorem findOpError_inner_mem :
    ∀ (e : GoErr) (p : String) (ie : GoErr),
      findOpError e = some (p, some ie) → ie.error ∈ allMsgs e
  | .basic _, p, ie, h => by simp [findOpError] at h
  | .wrapf pre inner, p, ie, h => by
    simp only [findOpError] at h
    have h2 := findOpError_inner_mem inner p ie h
    simp only [allMsgs, chain, List.map_cons, List.mem_cons]
    exact Or.inr h2
  | .opError pre o, p, ie, h => by
    simp only [findOpError, Option.some.injEq, Prod.mk.injEq] at h
    obtain ⟨-, ho⟩ := h
    subst ho
    simp only [allMsgs, chain, List.map_cons, List.mem_cons]
    exact Or.inr (error_mem_allMsgs ie)

/-- The wrap chain contains a `*net.OpError` whose `Err` field is non-nil. -/
def hasOpErrInner (e : GoErr) : Prop :=
  ∃ p ie, GoErr.opError p (some ie) ∈ chain e

theorem hasOpErrInner_findOpError :
    ∀ e : GoErr, hasOpErrInner e → ∃ p ie, findOpError e = some (p, some ie)
  | .basic m, ⟨p, ie, hmem⟩ => by
    simp [chain] at hmem
  | .wrapf pre inner, ⟨p, ie, hmem⟩ => by
    simp only [chain, List.mem_cons] at hmem
    rcases hmem with heq | hmem2
    · cases heq
    · obtain ⟨p2, ie2, h2⟩ := hasOpErrInner_findOpError inner ⟨p, ie, hmem2⟩
      exact ⟨p2, ie2, by simp [findOpError, h2]⟩
  | .opError pre none, ⟨p, ie, hmem⟩ => by
    simp only [chain, List.mem_singleton] at hmem
    injection hmem with h1 h2
    cases h2
  | .opError pre (some inner), _ => ⟨pre, inner, rfl⟩

/-- C3 (amended): the classifier returns false for a nil error; when the
wrap chain holds a `*net.OpError` with non-nil inner error, its result is the
substring test on that (first) inner error's message; otherwise it is the
substring test on the top-level message; consequently it returns false
whenever no message at any level of wrapping matches. -/
theorem isBrokenPipe_classification (e : GoErr) :
    isBrokenPipe none = false ∧
    (∀ p ie, findOpError e = some (p, some ie) →
      isBrokenPipe (some e) = matchesBrokenPipeMsg ie.error) ∧
    (findOpError e = none →
      isBrokenPipe (some e) = matchesBrokenPipeMsg e.error) ∧
    (∀ p, findOpError e = some (p, none) →
      isBrokenPipe (some e) = matchesBrokenPipeMsg e.error) ∧
    ((∀ m ∈ allMsgs e, matchesBrokenPipeMsg m = false) →
      isBrokenPipe (some e) = false) := by
  refine ⟨rfl, ?_, ?_, ?_, ?_⟩
  · intro p ie hf
    simp [isBrokenPipe, hf]
  · intro hf
    simp [isBrokenPipe, hf]
  · intro p hf
    simp [isBrokenPipe, hf]
  · intro hall
    rcases hf : findOpError e with - | ⟨p, o⟩
    · rw [show isBrokenPipe (some e) = matchesBrokenPipeMsg e.error from
        by simp [isBrokenPipe, hf]]
      exact hall e.error (error_mem_allMsgs e)
    · cases o with
      | none =>
        rw [show isBrokenPipe (some e) = matchesBrokenPipeMsg e.error from
          by simp [isBrokenPipe, hf]]
        exact hall e.error (error_mem_allMsgs e)
      | some ie =>
        rw [show isBrokenPipe (some e) = matchesBrokenPipeMsg ie.error from
          by simp [isBrokenPipe, hf]]
        exact hall ie.error (findOpError_inner_mem e p ie hf)

/-- A wrapped error whose top-level message mentions "broken pipe" although
the inner message of the wrapped `*net.OpError` is unrelated; in Go:
`fmt.Errorf("broken pipe: %w", &net.OpError{Op: "write", Net: "tcp",
Err: errors.New("timeout")})`. -/
def c3err : GoErr :=
  .wrapf "broken pipe: " (.opError "write tcp" (some (.basic "timeout")))

/-- C3 counterexample: the top-level message — a message at a level of
wrapping — contains "broken pipe", yet the classifier returns false, because
the chain holds a `*net.OpError` and only its inner message ("timeout") is
tested.  This falsifies "if the error's message at any level of wrapping
contains the substring ... the classifier returns true" at a concrete
input. -/
theorem c3_counterexample :
    c3err.error ∈ allMsgs c3err ∧
    matchesBrokenPipeMsg c3err.error = true ∧
    isBrokenPipe (some c3err) = false :=
  ⟨error_mem_allMsgs c3err, by decide, by decide⟩

/-- C3 (amended) witness: the OpError branch of the classification theorem
applied to a concrete error. -/
theorem isBrokenPipe_classification_witness :
    isBrokenPipe (some (.opError "write" (some (.basic "broken pipe")))) =
      matchesBrokenPipeMsg (GoErr.basic "broken pipe").error :=
  (isBrokenPipe_classification (.opError "write" (some (.basic "broken pipe")))).2.1
    "write" (.basic "broken pipe") rfl

/-- C10: whenever the wrap chain contains a `*net.OpError` with a non-nil
inner error, `errors.As` selects the first such OpError and the classifier's
result is exactly the substring test on that inner error's message — in
particular it returns false when that inner message matches neither
substring, regardless of the top-level message. -/
theorem opError_inner_decides (e : GoErr) (h : hasOpErrInner e) :
    ∃ p ie, findOpError e = some (p, some ie) ∧
      isBrokenPipe (some e) = matchesBrokenPipeMsg ie.error ∧
      (matchesBrokenPipeMsg ie.error = false → isBrokenPipe (some e) = false) := by
  obtain ⟨p, ie, hf⟩ := hasOpErrInner_findOpError e h
  refine ⟨p, ie, hf, ?_, ?_⟩
  · simp [isBrokenPipe, hf]
  · intro hm
    simp [isBrokenPipe, hf, hm]

/-- C10 witness: the theorem applied to a concrete OpError value. -/
theorem opError_inner_decides_witness :
    ∃ p ie,
      findOpError (GoErr.opError "write" (some (.basic "timeout"))) =
        some (p, some ie) ∧
      isBrokenPipe (some (GoErr.opError "write" (some (.basic "timeout")))) =
        matchesBrokenPipeMsg ie.error ∧
      (matchesBrokenPipeMsg ie.error = false →
        isBrokenPipe (some (GoErr.opError "write" (some (.basic "timeout")))) =
          false) :=
  opError_inner_decides _ ⟨"write", .basic "timeout", by simp [chain]⟩

/-! ## Header map lemmas -/

theorem hlookup_append_single (h : Header) (ck : String) (vs : List String)
    (k2 : String) (hne : ck ≠ k2) :
    hlookup k2 (h ++ [(ck, vs)]) = hlookup k2 h := by
  induction h with
  | nil => simp [hlookup, hne]
  | cons p t ih =>
    obtain ⟨k1, vs1⟩ := p
    by_cases hk : k1 = k2 <;> simp [hlookup, hk, ih]

theorem hlookup_replaceAll_other (h : Header) (ck v k2 : String)
    (hne : ck ≠ k2) :
    hlookup k2 (replaceAll ck v h) = hlookup k2 h := by
  induction h with
  | nil => rfl
  | cons p t ih =>
    obtain ⟨k1, vs1⟩ := p
    by_cases hk : k1 = ck
    · subst hk
      simp [replaceAll, hlookup, hne, ih]
    · by_cases hk2 : k1 = k2 <;>
        simp [replaceAll, hlookup, hk, hk2, ih, Ne.symm hne]

theorem hlookup_replaceAll_self (h : Header) (ck v : String)
    (hs : (hlookup ck h).isSome = true) :
    hlookup ck (replaceAll ck v h) = some [v] := by
  induction h with
  | nil => simp [hlookup] at hs
  | cons p t ih =>
    obtain ⟨k1, vs1⟩ := p
    by_cases hk : k1 = ck
    · simp [replaceAll, hlookup, hk]
    · simp only [hlookup, if_neg hk] at hs
      simp [replaceAll, hlookup, hk, ih hs]

theorem hlookup_set_self (h : Header) (k v : String) :
    hlookup (canonicalKey k) (Header.set h k v) = some [v] := by
  unfold Header.set
  cases hs : (hlookup (canonicalKey k) h).isSome with
  | true =>
    simp only [hs, if_true]
    exact hlookup_replaceAll_self h (canonicalKey k) v hs
  | false =>
    simp only [hs, Bool.false_eq_true, if_false]
    induction h with
    | nil => simp [hlookup]
    | cons p t ih =>
      obtain ⟨k1, vs1⟩ := p
      by_cases hk : k1 = canonicalKey k
      · exfalso
        rw [show (hlookup (canonicalKey k) ((k1, vs1) :: t)).isSome = true from
          by simp [hlookup, hk]] at hs
        cases hs
      · simp only [List.cons_append, hlookup, if_neg hk]
        exact ih (by simpa [hlookup, hk] using hs)

theorem hlookup_set_other (h : Header) (k v k2 : String)
    (hne : canonicalKey k ≠ k2) :
    hlookup k2 (Header.set h k v) = hlookup k2 h := by
  unfold Header.set
  cases hs : (hlookup (canonicalKey k) h).isSome with
  | true =>
    simp only [hs, if_true]
    exact hlookup_replaceAll_other h (canonicalKey k) v k2 hne
  | false =>
    simp only [hs, Bool.false_eq_true, if_false]
    exact hlookup_append_single h (canonicalKey k) [v] k2 hne

theorem hlookup_mem (h : Header) (k : String) (vs : List String)
    (hl : hlookup k h = some vs) : (k, vs) ∈ h := by
  induction h with
  | nil => simp [hlookup] at hl
  | cons p t ih =>
    obtain ⟨k1, vs1⟩ := p
    by_cases hk : k1 = k
    · subst hk
      simp only [hlookup, if_true, if_pos rfl, Option.some.injEq] at hl
      subst hl
      exact List.mem_cons_self _ _
    · simp only [hlookup, if_neg hk] at hl
      exact List.mem_cons_of_mem _ (ih hl)

/-! ## Redaction-loop lemmas -/

theorem hlookup_redactOne_other (h : Header) (n k2 : String)
    (hne : canonicalKey n ≠ k2) :
    hlookup k2 (redactOne h n) = hlookup k2 h := by
  unfold redactOne
  split
  · exact hlookup_set_other h n _ k2 hne
  · rfl

theorem redactOne_of_empty (h : Header) (n : String)
    (he : Header.get h n = "") : redactOne h n = h := by
  simp [redactOne, he]

theorem hlookup_redactOne_self (h : Header) (n : String)
    (hn : Header.get h n ≠ "") :
    hlookup (canonicalKey n) (redactOne h n) = some ["***REDACTED***"] := by
  rw [redactOne, if_pos hn]
  exact hlookup_set_self h n _

theorem get_redactOne_other (h : Header) (n k : String)
    (hne : canonicalKey n ≠ canonicalKey k) :
    Header.get (redactOne h n) k = Header.get h k := by
  unfold Header.get
  rw [hlookup_redactOne_other h n _ hne]

theorem hlookup_foldl_redact_of_not_mem (names : List String) (h : Header)
    (k : String) (hnm : ∀ n ∈ names, canonicalKey n ≠ k) :
    hlookup k (names.foldl redactOne h) = hlookup k h := by
  induction names generalizing h with
  | nil => rfl
  | cons n t ih =>
    rw [List.foldl_cons,
      ih (redactOne h n) (fun m hm => hnm m (List.mem_cons_of_mem _ hm)),
      hlookup_redactOne_other h n k (hnm n (List.mem_cons_self _ _))]

theorem hlookup_foldl_redact_self (names : List String) (h : Header)
    (name : String) (hmem : name ∈ names)
    (hnd : (names.map canonicalKey).Nodup)
    (hne : Header.get h name ≠ "") :
    hlookup (canonicalKey name) (names.foldl redactOne h) =
      some ["***REDACTED***"] := by
  induction names generalizing h with
  | nil => cases hmem
  | cons n t ih =>
    rw [List.map_cons, List.nodup_cons] at hnd
    rw [List.foldl_cons]
    rcases List.mem_cons.mp hmem with rfl | hmem2
    · have hnm : ∀ m ∈ t, canonicalKey m ≠ canonicalKey name := by
        intro m hm heq
        exact hnd.1 (heq ▸ List.mem_map_of_mem _ hm)
      rw [hlookup_foldl_redact_of_not_mem t (redactOne h name) _ hnm]
      exact hlookup_redactOne_self h name hne
    · have hn_ne : canonicalKey n ≠ canonicalKey name := by
        intro heq
        exact hnd.1 (heq ▸ List.mem_map_of_mem _ hmem2)
      refine ih (redactOne h n) hmem2 hnd.2 ?_
      rw [get_redactOne_other h n name hn_ne]
      exact hne

theorem hlookup_foldl_redact_of_get_empty (names : List String) (h : Header)
    (name : String) (hmem : name ∈ names)
    (hnd : (names.map canonicalKey).Nodup)
    (he : Header.get h name = "") :
    hlookup (canonicalKey name) (names.foldl redactOne h) =
      hlookup (canonicalKey name) h := by
  induction names generalizing h with
  | nil => rfl
  | cons n t ih =>
    rw [List.map_cons, List.nodup_cons] at hnd
    rw [List.foldl_cons]
    rcases List.mem_cons.mp hmem with rfl | hmem2
    · have hnm : ∀ m ∈ t, canonicalKey m ≠ canonicalKey name := by
        intro m hm heq
        exact hnd.1 (heq ▸ List.mem_map_of_mem _ hm)
      rw [hlookup_foldl_redact_of_not_mem t (redactOne h name) _ hnm,
        redactOne_of_empty h name he]
    · have hn_ne : canonicalKey n ≠ canonicalKey name := by
        intro heq
        exact hnd.1 (heq ▸ List.mem_map_of_mem _ hmem2)
      rw [ih (redactOne h n) hmem2 hnd.2
          (by rw [get_redactOne_other h n name hn_ne]; exact he),
        hlookup_redactOne_other h n _ hn_ne]

theorem sens_canonical : ∀ n ∈ sensitiveHeaders, canonicalKey n = n := by
  decide

theorem sens_nodup : (sensitiveHeaders.map canonicalKey).Nodup := by decide

theorem sens_not_excluded : ∀ n ∈ sensitiveHeaders, dumpExcluded n = false := by
  decide

/-- C9: the redaction loop decides by the first value only.  If a sensitive
header's first stored value is the empty string, its whole binding (including
any later, possibly non-empty values) is left untouched; if the first value
is non-empty, the binding collapses to the single value `***REDACTED***`. -/
theorem redact_first_value_decides (h : Header) (name : String)
    (vs : List String) (hmem : name ∈ sensitiveHeaders) :
    (hlookup name h = some ("" :: vs) →
      hlookup name (redactHeaders h) = some ("" :: vs)) ∧
    (∀ v0, v0 ≠ "" → hlookup name h = some (v0 :: vs) →
      hlookup name (redactHeaders h) = some ["***REDACTED***"]) := by
  have hc : canonicalKey name = name := sens_canonical name hmem
  constructor
  · intro hl
    have he : Header.get h name = "" := by
      simp [Header.get, hc, hl]
    have h2 := hlookup_foldl_redact_of_get_empty sensitiveHeaders h name hmem
      sens_nodup he
    rw [hc] at h2
    rw [redactHeaders, h2, hl]
  · intro v0 hv0 hl
    have hne : Header.get h name ≠ "" := by
      simp [Header.get, hc, hl]
      exact hv0
    have h2 := hlookup_foldl_redact_self sensitiveHeaders h name hmem
      sens_nodup hne
    rw [hc] at h2
    rw [redactHeaders, h2]

/-- C9 witness: a Cookie header whose first value is empty keeps its whole
value list through redaction. -/
theorem redact_first_value_decides_witness :
    hlookup "Cookie" (redactHeaders [("Cookie", ["", "secret"])]) =
      some ["", "secret"] :=
  (redact_first_value_decides [("Cookie", ["", "secret"])] "Cookie" ["secret"]
    (by decide)).1 rfl

/-- The example request used by the concrete witnesses: a GET whose
Authorization secret happens to equal the method name and which carries an
X-Request-Id header. -/
def reqA : Request :=
  { method := "GET", url := "/login", requestURI := "/login",
    urlRequestURI := "/login", urlHost := "", host := "example.com",
    protoMajor := 1, protoMinor := 1, transferEncoding := [], close := false,
    header := [("Authorization", ["GET"]), ("X-Request-Id", ["abc"])],
    body := 0 }

/-- C1: for a recovered fault not classified broken-pipe, the interceptor
writes exactly one response: status 500 with the three-field JSON body,
`requestId` being the `X-Request-ID` value (first value when present, the
empty string when absent), and aborts the context. -/
theorem c1_internal_error_response (r : Request) (v : PanicVal)
    (elapsed stack : String)
    (hb : isBrokenPipe (some (normalizeRecovered v)) = false) :
    (RecoveryJSON r (.panicked v) elapsed stack).response = some
      { status := 500,
        body := [("error", "internal_error"),
                 ("message", "Something went wrong"),
                 ("requestId", Header.get r.header "X-Request-ID")] } ∧
    (RecoveryJSON r (.panicked v) elapsed stack).aborted = true ∧
    (hlookup "X-Request-Id" r.header = none →
      Header.get r.header "X-Request-ID" = "") ∧
    (∀ v0 vs, hlookup "X-Request-Id" r.header = some (v0 :: vs) →
      Header.get r.header "X-Request-ID" = v0) := by
  have hc : canonicalKey "X-Request-ID" = "X-Request-Id" := by decide
  refine ⟨?_, ?_, ?_, ?_⟩
  · simp [RecoveryJSON, hb]
  · simp [RecoveryJSON, hb]
  · intro hl
    simp [Header.get, hc, hl]
  · intro v0 vs hl
    simp [Header.get, hc, hl]

/-- C1 witness: a plain string panic on a request carrying
`X-Request-Id: abc`. -/
theorem c1_internal_error_response_witness :
    isBrokenPipe (some (normalizeRecovered (.otherVal "boom"))) = false ∧
    (RecoveryJSON reqA (.panicked (.otherVal "boom")) "1ms" "stack").response =
      some { status := 500,
             body := [("error", "internal_error"),
                      ("message", "Something went wrong"),
                      ("requestId", Header.get reqA.header "X-Request-ID")] } :=
  ⟨by decide,
    (c1_internal_error_response reqA (.otherVal "boom") "1ms" "stack"
      (by decide)).1⟩

/-- C2: for a recovered fault classified broken-pipe, no response is written,
the normalized error is recorded on the context, and the context is
aborted. -/
theorem c2_broken_pipe_abort (r : Request) (v : PanicVal)
    (elapsed stack : String)
    (hb : isBrokenPipe (some (normalizeRecovered v)) = true) :
    (RecoveryJSON r (.panicked v) elapsed stack).response = none ∧
    (RecoveryJSON r (.panicked v) elapsed stack).contextErrors =
      [normalizeRecovered v] ∧
    (RecoveryJSON r (.panicked v) elapsed stack).aborted = true := by
  refine ⟨?_, ?_, ?_⟩ <;> simp [RecoveryJSON, hb]

/-- C2 witness: a panic whose error message is a broken-pipe write error. -/
theorem c2_broken_pipe_abort_witness :
    isBrokenPipe
      (some (normalizeRecovered (.errVal (.basic "write: broken pipe")))) =
        true ∧
    (RecoveryJSON reqA (.panicked (.errVal (.basic "write: broken pipe")))
      "1ms" "stack").response = none :=
  ⟨by decide,
    (c2_broken_pipe_abort reqA (.errVal (.basic "write: broken pipe"))
      "1ms" "stack" (by decide)).1⟩

/-- C6: when the inner chain completes without fault, the interceptor has no
observable effect: no log record, no response write, no recorded error, no
abort. -/
theorem c6_noop_on_completion (r : Request) (elapsed stack : String) :
    RecoveryJSON r .completed elapsed stack =
      { logLine := none, response := none, contextErrors := [],
        aborted := false } := rfl

/-- C8: every recovered fault produces exactly one log record, whose fields
appear in the order elapsed duration, method, full URL, broken-pipe boolean,
normalized error message, redacted request dump, stack trace. -/
theorem c8_log_record (r : Request) (v : PanicVal) (elapsed stack : String) :
    (RecoveryJSON r (.panicked v) elapsed stack).logLine =
      some (panicLogLine elapsed r.method r.url
        (isBrokenPipe (some (normalizeRecovered v)))
        (normalizeRecovered v).error (dumpRequestSafe r) stack) := by
  cases hb : isBrokenPipe (some (normalizeRecovered v)) <;>
    simp [RecoveryJSON, hb]

/-- C5: the interceptor never reads the request body and never mutates the
original request.  The state-passing rendering of `dumpRequestSafe` returns
the original request (header mapping included) unchanged and produces the
same text, and the whole interceptor's behaviour is independent of the body
field. -/
theorem c5_no_body_no_mutation (r : Request) (b : Nat) (outcome : Outcome)
    (elapsed stack : String) :
    (dumpRequestSafeSt r).2 = r ∧
    (dumpRequestSafeSt r).2.header = r.header ∧
    (dumpRequestSafeSt r).1 = dumpRequestSafe r ∧
    dumpRequestSafe { r with body := b } = dumpRequestSafe r ∧
    RecoveryJSON { r with body := b } outcome elapsed stack =
      RecoveryJSON r outcome elapsed stack := by
  refine ⟨rfl, rfl, rfl, rfl, ?_⟩
  cases outcome <;> rfl

/-- C7: if serialising the redacted snapshot fails, `dumpRequestSafe`
returns the placeholder diagnostic instead of the dump and the failure does
not escape (the guard is total); the serialiser actually wired in
(`DumpRequest` with `body=false` writing to a buffer) never fails. -/
theorem c7_dump_failure_guard (dumper : Request → Except String String)
    (r : Request) (e : String)
    (hf : dumper (redactedCopy r) = .error e) :
    dumpRequestSafeWith dumper r = "could not dump request: " ++ e ∧
    dumpRequestSafe r = dumpRequestSafeWith dumpRequestExc r ∧
    dumpRequestExc (redactedCopy r) = .ok (dumpRequest (redactedCopy r)) := by
  refine ⟨?_, rfl, rfl⟩
  simp [dumpRequestSafeWith, hf]

/-- C7 witness: a failing serialiser yields the placeholder. -/
theorem c7_dump_failure_guard_witness :
    dumpRequestSafeWith (fun _ => .error "invalid request") reqA =
      "could not dump request: invalid request" :=
  (c7_dump_failure_guard (fun _ => .error "invalid request") reqA
    "invalid request" rfl).1

/-- C4 counterexample: `reqA` carries `Authorization: GET`, whose secret
value equals the request method.  Redaction does replace the header value
with the marker, yet the produced dump still contains the secret text "GET"
(in the request line), falsifying "never contains the original secret value"
at a concrete input. -/
theorem c4_counterexample :
    Header.get reqA.header "Authorization" = "GET" ∧
    strContains (dumpRequestSafe reqA) "***REDACTED***" = true ∧
    strContains (dumpRequestSafe reqA) "GET" = true := by
  have hd : dumpRequestSafe reqA =
      "GET /login HTTP/1.1\r\nHost: example.com\r\nAuthorization: ***REDACTED***\r\nX-Request-Id: abc" := by
    decide
  refine ⟨by decide, ?_, ?_⟩ <;> rw [hd] <;> decide

theorem patSideConds (name : String) (hmem : name ∈ sensitiveHeaders) :
    ((name ++ ": ***REDACTED***").data.head?.all (fun c => !isGoSpace c)
        = true) ∧
    ((name ++ ": ***REDACTED***").data.getLast?.all (fun c => !isGoSpace c)
        = true) := by
  fin_cases hmem <;> exact ⟨by decide, by decide⟩

/-- C4 (amended): for every sensitive header present with a non-empty first
value, the redacted header mapping binds it to the single value
`***REDACTED***` and the produced snapshot contains the text
`<Name>: ***REDACTED***` — the marker stands in place of the value; a
sensitive header whose first value is the empty string keeps its binding
unchanged.  (The dump as a whole can still contain the secret text when it
also occurs in a non-redacted part of the request, per the
counterexample.) -/
theorem c4_redaction (r : Request) (name : String)
    (hmem : name ∈ sensitiveHeaders) :
    (Header.get r.header name ≠ "" →
      hlookup name (redactHeaders r.header) = some ["***REDACTED***"] ∧
      strContains (dumpRequestSafe r) (name ++ ": ***REDACTED***") = true) ∧
    (Header.get r.header name = "" →
      hlookup name (redactHeaders r.header) = hlookup name r.header) := by
  have hc : canonicalKey name = name := sens_canonical name hmem
  constructor
  · intro hne
    have hl : hlookup name (redactHeaders r.header) = some ["***REDACTED***"] := by
      have h2 := hlookup_foldl_redact_self sensitiveHeaders r.header name hmem
        sens_nodup hne
      rw [hc] at h2
      exact h2
    refine ⟨hl, ?_⟩
    have hmem2 : (name, ["***REDACTED***"]) ∈ redactHeaders r.header :=
      hlookup_mem _ _ _ hl
    have hmem3 : (name, ["***REDACTED***"]) ∈
        (redactHeaders r.header).filter (fun p => !(dumpExcluded p.1)) :=
      List.mem_filter.mpr ⟨hmem2, by simp [sens_not_excluded name hmem]⟩
    have hmem4 : (name, ["***REDACTED***"]) ∈
        sortByKey ((redactHeaders r.header).filter
          (fun p => !(dumpExcluded p.1))) :=
      (mem_sortByKey _ _).mpr hmem3
    have hmem5 : renderKV (name, ["***REDACTED***"]) ∈
        (sortByKey ((redactHeaders r.header).filter
          (fun p => !(dumpExcluded p.1)))).map renderKV :=
      List.mem_map_of_mem _ hmem4
    have hinf1 : (renderKV (name, ["***REDACTED***"])).data <:+:
        (headerBlock (redactHeaders r.header)).data := by
      rw [headerBlock]
      exact mem_concatStrs _ _ hmem5
    have hdata : (renderKV (name, ["***REDACTED***"])).data =
        (name ++ ": ***REDACTED***").data ++ ("\r\n" : String).data := by
      have h0 : renderKV (name, ["***REDACTED***"]) =
          headerLine name "***REDACTED***" ++ "" := rfl
      rw [h0, headerLine,
        show sanitizeHeaderValue "***REDACTED***" = "***REDACTED***" from
          by decide]
      simp only [strData_append, show ("" : String).data = [] from rfl,
        List.append_assoc, List.append_nil]
      congr 1
    have hinfpat : (name ++ ": ***REDACTED***").data <:+:
        (renderKV (name, ["***REDACTED***"])).data :=
      ⟨[], ("\r\n" : String).data, by rw [hdata]; simp⟩
    have hinf2 : (name ++ ": ***REDACTED***").data <:+:
        (headerBlock (redactHeaders r.header)).data := hinfpat.trans hinf1
    have hrc : (redactedCopy r).header = redactHeaders r.header := by
      rw [redactedCopy]
    have hsplit : (dumpRequest (redactedCopy r)).data =
        (dumpPre (redactedCopy r)).data ++
          (headerBlock (redactHeaders r.header)).data ++
          ("\r\n" : String).data := by
      rw [dumpRequest, strData_append, strData_append, hrc]
    have hinf3 : (name ++ ": ***REDACTED***").data <:+:
        (dumpRequest (redactedCopy r)).data := by
      rw [hsplit]
      exact infix_extend _ _ hinf2
    have hside := patSideConds name hmem
    have hinf4 : (name ++ ": ***REDACTED***").data <:+:
        trimList (dumpRequest (redactedCopy r)).data :=
      infix_trimList _ _ hside.1 hside.2 hinf3
    have hsafe : dumpRequestSafe r = trimSpace (dumpRequest (redactedCopy r)) := by
      rw [dumpRequestSafe, dumpRequestSafeWith, dumpRequestExc]
    refine (strContains_iff (dumpRequestSafe r) (name ++ ": ***REDACTED***")).mpr ?_
    rw [hsafe, trimSpace_data]
    exact hinf4
  · intro he
    have h2 := hlookup_foldl_redact_of_get_empty sensitiveHeaders r.header name
      hmem sens_nodup he
    rw [hc] at h2
    exact h2

/-- C4 (amended) witness: the theorem applied to `reqA`, whose Authorization
header is present and non-empty. -/
theorem c4_redaction_witness :
    hlookup "Authorization" (redactHeaders reqA.header) =
      some ["***REDACTED***"] ∧
    strContains (dumpRequestSafe reqA) ("Authorization" ++ ": ***REDACTED***") =
      true :=
  (c4_redaction reqA "Authorization" (by decide)).1 (by decide)

end Recovery
